import Mathlib

/-!
Verification of the tagtrail scan-to-structured-sheet pipeline
(`tagtrail_ocr.py`), shallowly embedded in Lean 4.

Conventions of the embedding:
* Pure functions of the source are translated to Lean functions; image data
  and results of native image-processing calls (OpenCV, tesseract) enter the
  translated functions as explicit arguments, following the capability-style
  design of the repository (adaptiveThreshold, connectedComponents, ocr and
  friends are external collaborators).
* Machine floats of the source only ever hold ratios of small integers in
  the verified fragment (edit distances, vote counts, pixel counts), so
  they are modelled as `ℚ`; the float literal `0.5` is written `mkRat 1 2`.
* Fallible code (numpy raising on too-short inputs, missing template boxes)
  is modelled with `Option`.
* Parts of the repository that are referenced but whose code is not
  available (`sheets.ProductSheet`, `database.Database`) are modelled from
  the specification; their definitions say so in their doc comments.
-/

namespace Tagtrail

/-- Levenshtein edit distance between two strings, unit cost for insert,
delete and substitute. This embeds the external `Levenshtein.distance`
call of `RecognizeText.findClosestString`, reusing the cost-structure
formulation available in the ambient library. -/
def levDistance (a b : String) : ℕ :=
  levenshtein Levenshtein.defaultCost a.data b.data

/-- Translation of `strings = list(set(strings))` in
`RecognizeText.findClosestString`: the candidate list with duplicates
removed. Python iterates an unordered set here; `List.dedup` (keep first
occurrences) is the determinization, justified by the order-invariance
theorem for the matcher. -/
def candidateSet (strings : List String) : List String :=
  strings.dedup

/-- Translation of `dists = list(map(lambda x: Levenshtein.distance(x, string), strings))`
in `RecognizeText.findClosestString`. -/
def distList (string : String) (strings : List String) : List ℕ :=
  (candidateSet strings).map fun x => levDistance x string

/-- Translation of `RecognizeText.findClosestString(string, strings)`.
The source takes the two smallest distances via `np.partition(dists, 1)[:2]`
(determinized as the first two entries of an ascending sort), rejects when
`minDist > 5 or minDist == secondDist` with `(0, "")`, and otherwise returns
`(1 - minDist/secondDist, strings[dists.index(minDist)])`.
Result `none` models the numpy exception raised when fewer than two
distinct candidates exist. The returned pair is (confidence, text), as in
the source. -/
def findClosestString (string : String) (strings : List String) :
    Option (ℚ × String) :=
  match (distList string strings).insertionSort (· ≤ ·) with
  | minDist :: secondDist :: _ =>
      if 5 < minDist ∨ minDist = secondDist then some (0, "")
      else some (1 - (minDist : ℚ) / (secondDist : ℚ),
                 (candidateSet strings).getD
                   ((distList string strings).indexOf minDist) "")
  | _ => none

/-- Statement, written from the specification's words, that `d1` is the
smallest and `d2` the second-smallest entry of the distance list `l`
(counting multiplicity over the distinct candidates). -/
def IsTwoSmallest (l : List ℕ) (d1 d2 : ℕ) : Prop :=
  d1 ∈ l ∧ (∀ d ∈ l, d1 ≤ d) ∧ d1 ≤ d2 ∧
    ((d1 = d2 ∧ 2 ≤ l.count d1) ∨
     (d1 < d2 ∧ l.count d1 = 1 ∧ d2 ∈ l ∧ ∀ d ∈ l, d ≠ d1 → d2 ≤ d))

/-- Helper: the first two entries of the ascending sort of a list are its
smallest and second-smallest entries. -/
lemma twoSmallest_of_sort_eq (l : List ℕ) (d1 d2 : ℕ) (rest : List ℕ)
    (h : l.insertionSort (· ≤ ·) = d1 :: d2 :: rest) : IsTwoSmallest l d1 d2 := by
  have hperm : (l.insertionSort (· ≤ ·)).Perm l := l.perm_insertionSort _
  have hsorted : (l.insertionSort (· ≤ ·)).Sorted (· ≤ ·) := l.sorted_insertionSort _
  rw [h] at hperm hsorted
  have hmem : ∀ d, d ∈ l ↔ d ∈ d1 :: d2 :: rest := fun d => (hperm.mem_iff).symm
  have htail : ∀ b ∈ d2 :: rest, d1 ≤ b := List.rel_of_sorted_cons hsorted
  have hd1min : ∀ d ∈ l, d1 ≤ d := by
    intro d hd
    rcases List.mem_cons.mp ((hmem d).mp hd) with h1 | h1
    · omega
    · exact htail d h1
  have hd1d2 : d1 ≤ d2 := htail d2 (by simp)
  have hcount : l.count d1 = (d1 :: d2 :: rest).count d1 := (hperm.count_eq d1).symm
  refine ⟨(hmem d1).mpr (by simp), hd1min, hd1d2, ?_⟩
  rcases eq_or_lt_of_le hd1d2 with heq | hlt
  · left
    refine ⟨heq, ?_⟩
    rw [hcount, List.count_cons, List.count_cons]
    simp [heq]
  · right
    have hd2rest : ∀ b ∈ rest, d2 ≤ b := List.rel_of_sorted_cons hsorted.of_cons
    have hnotmem : d1 ∉ d2 :: rest := by
      intro hc
      rcases List.mem_cons.mp hc with hc | hc
      · omega
      · have := hd2rest d1 hc
        omega
    refine ⟨hlt, ?_, (hmem d2).mpr (by simp), ?_⟩
    · rw [hcount]
      have h0 : (d2 :: rest).count d1 = 0 := List.count_eq_zero.mpr hnotmem
      rw [show (d1 :: d2 :: rest) = d1 :: (d2 :: rest) from rfl, List.count_cons]
      simp [h0]
    · intro d hd hne
      rcases List.mem_cons.mp ((hmem d).mp hd) with h1 | h1
      · omega
      · rcases List.mem_cons.mp h1 with h1 | h1
        · omega
        · exact hd2rest d h1

/-- Helper: two distinct elements mapping to the same value force that
value to occur at least twice in the mapped list. -/
lemma count_map_two {α : Type} [DecidableEq α] (D : α → ℕ) (m : ℕ) (l : List α)
    (x y : α) (hx : x ∈ l) (hy : y ∈ l) (hxy : x ≠ y)
    (hDx : D x = m) (hDy : D y = m) : 2 ≤ (l.map D).count m := by
  induction l with
  | nil => simp at hx
  | cons a t ih =>
    rcases List.mem_cons.mp hx with hx1 | hx1
    · have hyt : y ∈ t := by
        rcases List.mem_cons.mp hy with hy1 | hy1
        · exact absurd (hx1.trans hy1.symm) hxy
        · exact hy1
      have h1 : 0 < (t.map D).count m :=
        List.count_pos_iff.mpr (List.mem_map.mpr ⟨y, hyt, hDy⟩)
      subst hx1
      rw [List.map_cons, List.count_cons, hDx]
      simp only [beq_self_eq_true, if_true]
      omega
    · rcases List.mem_cons.mp hy with hy1 | hy1
      · have h1 : 0 < (t.map D).count m :=
          List.count_pos_iff.mpr (List.mem_map.mpr ⟨x, hx1, hDx⟩)
        subst hy1
        rw [List.map_cons, List.count_cons, hDy]
        simp only [beq_self_eq_true, if_true]
        omega
      · have := ih hx1 hy1
        rw [List.map_cons, List.count_cons]
        omega

/-- Helper: unfolding of `findClosestString` once the sorted distance list
is known to have at least two entries. -/
lemma findClosestString_eq_of_sort (s : String) (cands : List String)
    (d1 d2 : ℕ) (rest : List ℕ)
    (hs : (distList s cands).insertionSort (· ≤ ·) = d1 :: d2 :: rest) :
    findClosestString s cands =
      if 5 < d1 ∨ d1 = d2 then some (0, "")
      else some (1 - (d1 : ℚ) / (d2 : ℚ),
                 (candidateSet cands).getD ((distList s cands).indexOf d1) "") := by
  unfold findClosestString
  rw [hs]

/-- Helper: the candidate returned in the accepting branch is a candidate
whose distance to the query realizes the minimum. -/
lemma argmin_mem_and_dist (s : String) (cands : List String) (d1 : ℕ)
    (hmem : d1 ∈ distList s cands) :
    (candidateSet cands).getD ((distList s cands).indexOf d1) "" ∈ cands ∧
    levDistance ((candidateSet cands).getD ((distList s cands).indexOf d1) "") s = d1 := by
  have hi : (distList s cands).indexOf d1 < (distList s cands).length :=
    List.indexOf_lt_length.mpr hmem
  have hlen : (distList s cands).length = (candidateSet cands).length := by
    simp [distList]
  have hi2 : (distList s cands).indexOf d1 < (candidateSet cands).length := hlen ▸ hi
  have hgetD : (candidateSet cands).getD ((distList s cands).indexOf d1) "" =
      (candidateSet cands).get ⟨(distList s cands).indexOf d1, hi2⟩ :=
    List.getD_eq_get _ _ hi2
  have hdist : (distList s cands).get ⟨(distList s cands).indexOf d1, hi⟩ = d1 :=
    List.indexOf_get hi
  have hmap : (distList s cands).get ⟨(distList s cands).indexOf d1, hi⟩ =
      levDistance ((candidateSet cands).get ⟨(distList s cands).indexOf d1, hi2⟩) s := by
    simp only [distList]
    exact List.get_map _
  constructor
  · rw [hgetD]
    exact List.mem_dedup.mp (List.get_mem _ _ hi2)
  · rw [hgetD, ← hmap, hdist]

/-- Helper: when the minimal distance occurs exactly once in the distance
list, the candidate realizing it is unique. -/
lemma argmin_unique (s : String) (cands : List String) (d1 : ℕ)
    (hcount : (distList s cands).count d1 = 1)
    (x y : String) (hx : x ∈ candidateSet cands) (hy : y ∈ candidateSet cands)
    (hDx : levDistance x s = d1) (hDy : levDistance y s = d1) : x = y := by
  by_contra hne
  have h2 := count_map_two (fun z => levDistance z s) d1 (candidateSet cands)
    x y hx hy hne hDx hDy
  have he : ((candidateSet cands).map fun z => levDistance z s) = distList s cands := rfl
  rw [he] at h2
  omega

/-- Helper: lists with the same underlying finite set have permutation-equal
deduplications. -/
lemma candidateSet_perm_of_toFinset_eq (l1 l2 : List String)
    (h : l1.toFinset = l2.toFinset) : (candidateSet l1).Perm (candidateSet l2) := by
  simp only [candidateSet]
  rw [List.perm_iff_count]
  intro a
  rcases Decidable.em (a ∈ l1.dedup) with hm | hm
  · have hm2 : a ∈ l2.dedup := by
      rw [List.mem_dedup] at hm ⊢
      have := h ▸ List.mem_toFinset.mpr hm
      exact List.mem_toFinset.mp this
    rw [List.count_eq_one_of_mem l1.nodup_dedup hm,
        List.count_eq_one_of_mem l2.nodup_dedup hm2]
  · have hm2 : a ∉ l2.dedup := by
      intro hc
      rw [List.mem_dedup] at hc hm
      exact hm (List.mem_toFinset.mp (h ▸ List.mem_toFinset.mpr hc))
    rw [List.count_eq_zero_of_not_mem hm, List.count_eq_zero_of_not_mem hm2]

/-- C1 (amended): `findClosestString` computes the edit distance to every
distinct candidate, keeps the smallest distance `d1` and second-smallest
`d2`; if `d1 > 5` or `d1 = d2` it returns empty text with confidence `0`,
otherwise it returns an arg-min candidate with confidence `1 - d1/d2`.
For the vocabulary APPLE/APPLES and input APPLR the distances are 1 and 2
(not a tie), so the result is text APPLE at confidence `1/2`. -/
theorem C1_findClosestString_matching (s : String) (cands : List String)
    (d1 d2 : ℕ) (rest : List ℕ)
    (hs : (distList s cands).insertionSort (· ≤ ·) = d1 :: d2 :: rest) :
    IsTwoSmallest (distList s cands) d1 d2 ∧
    ((5 < d1 ∨ d1 = d2) → findClosestString s cands = some (0, "")) ∧
    (d1 ≤ 5 → d1 ≠ d2 →
      ∃ t, findClosestString s cands = some (1 - (d1 : ℚ) / (d2 : ℚ), t) ∧
        t ∈ cands ∧ levDistance t s = d1) ∧
    levDistance "APPLE" "APPLR" = 1 ∧ levDistance "APPLES" "APPLR" = 2 ∧
    findClosestString "APPLR" ["APPLE", "APPLES"] = some (1/2, "APPLE") := by
  have htwo := twoSmallest_of_sort_eq (distList s cands) d1 d2 rest hs
  refine ⟨htwo, ?_, ?_, by decide, by decide, ?_⟩
  · intro h
    rw [findClosestString_eq_of_sort s cands d1 d2 rest hs, if_pos h]
  · intro h5 hne
    have harg := argmin_mem_and_dist s cands d1 htwo.1
    refine ⟨_, ?_, harg.1, harg.2⟩
    rw [findClosestString_eq_of_sort s cands d1 d2 rest hs, if_neg (by omega)]
  · have h1 : findClosestString "APPLR" ["APPLE", "APPLES"] =
        some (1 - ((1 : ℕ) : ℚ) / ((2 : ℕ) : ℚ), "APPLE") := rfl
    rw [h1]
    norm_num

/-- Witness for C1 at the concrete input of the specification's example. -/
theorem C1_witness :
    IsTwoSmallest (distList "APPLR" ["APPLE", "APPLES"]) 1 2 ∧
    ((5 < 1 ∨ 1 = 2) → findClosestString "APPLR" ["APPLE", "APPLES"] = some (0, "")) ∧
    (1 ≤ 5 → 1 ≠ 2 →
      ∃ t, findClosestString "APPLR" ["APPLE", "APPLES"] =
          some (1 - ((1 : ℕ) : ℚ) / ((2 : ℕ) : ℚ), t) ∧
        t ∈ ["APPLE", "APPLES"] ∧ levDistance t "APPLR" = 1) ∧
    levDistance "APPLE" "APPLR" = 1 ∧ levDistance "APPLES" "APPLR" = 2 ∧
    findClosestString "APPLR" ["APPLE", "APPLES"] = some (1/2, "APPLE") :=
  C1_findClosestString_matching "APPLR" ["APPLE", "APPLES"] 1 2 [] (by decide)

/-- Counterexample to C1 as stated: on vocabulary APPLE/APPLES and input
APPLR the distances are 1 and 2 rather than a tie at 1, and the matcher
returns APPLE at confidence `1/2` instead of empty text at confidence 0. -/
theorem C1_counterexample :
    levDistance "APPLES" "APPLR" = 2 ∧
    findClosestString "APPLR" ["APPLE", "APPLES"] = some (1/2, "APPLE") ∧
    findClosestString "APPLR" ["APPLE", "APPLES"] ≠ some (0, "") := by
  have h1 : findClosestString "APPLR" ["APPLE", "APPLES"] =
      some (1 - ((1 : ℕ) : ℚ) / ((2 : ℕ) : ℚ), "APPLE") := rfl
  have h2 : findClosestString "APPLR" ["APPLE", "APPLES"] = some (1/2, "APPLE") := by
    rw [h1]
    norm_num
  refine ⟨by decide, h2, ?_⟩
  intro hc
  rw [h2] at hc
  simp at hc

/-- C10: the matcher depends only on the set of candidates, not on their
order or multiplicity, and whenever a match is accepted (confidence not 0)
the minimizing candidate is unique among the candidates. -/
theorem C10_findClosestString_set_invariant (s : String) (l1 l2 : List String)
    (hset : l1.toFinset = l2.toFinset) (hlen : 2 ≤ l1.dedup.length) :
    findClosestString s l1 = findClosestString s l2 ∧
    (∀ q t, findClosestString s l1 = some (q, t) → q ≠ 0 →
      ∀ x ∈ l1, levDistance x s = levDistance t s → x = t) := by
  have hperm : (candidateSet l1).Perm (candidateSet l2) :=
    candidateSet_perm_of_toFinset_eq l1 l2 hset
  have hdperm : (distList s l1).Perm (distList s l2) :=
    hperm.map fun x => levDistance x s
  have hsortEq : (distList s l1).insertionSort (· ≤ ·) =
      (distList s l2).insertionSort (· ≤ ·) :=
    List.eq_of_perm_of_sorted
      (((distList s l1).perm_insertionSort _).trans
        (hdperm.trans ((distList s l2).perm_insertionSort _).symm))
      ((distList s l1).sorted_insertionSort _)
      ((distList s l2).sorted_insertionSort _)
  constructor
  · rcases hcase : (distList s l1).insertionSort (· ≤ ·) with _ | ⟨d1, rest1⟩
    · unfold findClosestString
      rw [hcase, ← hsortEq, hcase]
    · rcases rest1 with _ | ⟨d2, rest⟩
      · unfold findClosestString
        rw [hcase, ← hsortEq, hcase]
      · have hcase2 : (distList s l2).insertionSort (· ≤ ·) = d1 :: d2 :: rest :=
          hsortEq ▸ hcase
        rw [findClosestString_eq_of_sort s l1 d1 d2 rest hcase,
            findClosestString_eq_of_sort s l2 d1 d2 rest hcase2]
        by_cases hb : 5 < d1 ∨ d1 = d2
        · rw [if_pos hb, if_pos hb]
        · rw [if_neg hb, if_neg hb]
          have hne : d1 ≠ d2 := fun hc => hb (Or.inr hc)
          have htwo1 := twoSmallest_of_sort_eq (distList s l1) d1 d2 rest hcase
          have htwo2 := twoSmallest_of_sort_eq (distList s l2) d1 d2 rest hcase2
          have hcount : (distList s l1).count d1 = 1 := by
            rcases htwo1.2.2.2 with ⟨heq, _⟩ | ⟨_, hc, _⟩
            · exact absurd heq hne
            · exact hc
          have harg1 := argmin_mem_and_dist s l1 d1 htwo1.1
          have harg2 := argmin_mem_and_dist s l2 d1 htwo2.1
          have hmem1 : (candidateSet l1).getD ((distList s l1).indexOf d1) "" ∈
              candidateSet l1 := List.mem_dedup.mpr harg1.1
          have hmem2 : (candidateSet l2).getD ((distList s l2).indexOf d1) "" ∈
              candidateSet l1 := hperm.mem_iff.mpr (List.mem_dedup.mpr harg2.1)
          have htxt := argmin_unique s l1 d1 hcount _ _ hmem1 hmem2 harg1.2 harg2.2
          rw [htxt]
  · intro q t hq hq0 x hx hdx
    rcases hcase : (distList s l1).insertionSort (· ≤ ·) with _ | ⟨d1, rest1⟩
    · unfold findClosestString at hq
      rw [hcase] at hq
      exact absurd hq (by simp)
    · rcases rest1 with _ | ⟨d2, rest⟩
      · unfold findClosestString at hq
        rw [hcase] at hq
        exact absurd hq (by simp)
      · rw [findClosestString_eq_of_sort s l1 d1 d2 rest hcase] at hq
        by_cases hb : 5 < d1 ∨ d1 = d2
        · rw [if_pos hb] at hq
          have : q = 0 := by
            have := (Option.some.injEq _ _).mp hq
            exact ((Prod.mk.injEq _ _ _ _).mp this).1.symm
          exact absurd this hq0
        · rw [if_neg hb] at hq
          have hteq : t = (candidateSet l1).getD ((distList s l1).indexOf d1) "" := by
            have := (Option.some.injEq _ _).mp hq
            exact ((Prod.mk.injEq _ _ _ _).mp this).2.symm
          have hne : d1 ≠ d2 := fun hc => hb (Or.inr hc)
          have htwo1 := twoSmallest_of_sort_eq (distList s l1) d1 d2 rest hcase
          have hcount : (distList s l1).count d1 = 1 := by
            rcases htwo1.2.2.2 with ⟨heq, _⟩ | ⟨_, hc, _⟩
            · exact absurd heq hne
            · exact hc
          have harg1 := argmin_mem_and_dist s l1 d1 htwo1.1
          have hdt : levDistance t s = d1 := by rw [hteq]; exact harg1.2
          have hdx2 : levDistance x s = d1 := by rw [hdx, hdt]
          exact argmin_unique s l1 d1 hcount x t
            (List.mem_dedup.mpr hx)
            (hteq ▸ List.mem_dedup.mpr harg1.1) hdx2 hdt

/-- Witness for C10 at a concrete pair of lists with the same candidate
set in different order and multiplicity. -/
theorem C10_witness :
    findClosestString "APPLR" ["APPLE", "APPLES"] =
      findClosestString "APPLR" ["APPLES", "APPLE", "APPLES"] ∧
    (∀ q t, findClosestString "APPLR" ["APPLE", "APPLES"] = some (q, t) → q ≠ 0 →
      ∀ x ∈ ["APPLE", "APPLES"],
        levDistance x "APPLR" = levDistance t "APPLR" → x = t) :=
  C10_findClosestString_set_invariant "APPLR" ["APPLE", "APPLES"]
    ["APPLES", "APPLE", "APPLES"] (by decide) (by decide)

/-- Box of a product sheet. Modelled from the spec: `sheets.ProductSheet`
is not among the available sources; per the data model a Box carries a
name, a resolved text, a confidence, and a fixed grid position used for
neighbour lookup. Geometry and display attributes (rectangle, background
color) are omitted: no verified property mentions them. -/
structure Box where
  name : String
  text : String
  confidence : ℚ
  row : ℤ
  col : ℤ
deriving DecidableEq

/-- Product data consulted during cross-box inference. Modelled from the
spec: `database.Product` is not among the available sources. The fields
are the amount-and-unit string, the formatted gross sales price (the
`helpers.formatPrice` result), and the remaining quantity before this
accounting round. -/
structure ProductInfo where
  amountAndUnit : String
  formattedPrice : String
  previousQuantity : ℤ
deriving DecidableEq

/-- Helper: whether the pattern is an initial segment of the text. -/
def matchesAt : List Char → List Char → Bool
  | [], _ => true
  | _ :: _, [] => false
  | p :: ps, c :: cs => p == c && matchesAt ps cs

/-- Helper: whether the pattern occurs contiguously inside the text;
translates Python `haystack.find(needle) != -1`. -/
def containsSub : List Char → List Char → Bool
  | [], pat => matchesAt pat []
  | c :: t, pat => matchesAt pat (c :: t) || containsSub t pat

/-- String version of `containsSub`. -/
def strContainsSub (hay pat : String) : Bool :=
  containsSub hay.data pat.data

/-- Translation of Python `str.upper()` on the (ASCII) vocabulary and OCR
strings of the pipeline: uppercase every character. Defined over the
character list so that concrete evaluation stays within structural
recursion. -/
def strToUpper (s : String) : String :=
  String.mk (s.data.map Char.toUpper)

/-- Inputs of the per-box recognition loop of `RecognizeText.process`:
the fallback identity prepared by `prepareProcessing` and the candidate
vocabularies prepared from the database, plus the outcome of the
per-box `recognizeBoxText` call as a capability (its image processing and
OCR are external). `recog` returns (text, confidence) as the source
method does. -/
structure RecognitionEnv where
  fallbackSheetName : String
  fallbackPageNumber : ℕ
  names : List String
  units : List String
  prices : List String
  memberIds : List String
  pageNumbers : List String
  recog : Box → List String → String × ℚ

/-- Translation of the per-box loop of `RecognizeText.process` (the
`for box in self.__sheet.boxes()` loop assigning `box.text` and
`box.confidence` according to `box.name`). The local Python variable
`confidence` is assigned only in the nameBox and pageNumberBox branches
and read, stale, in the priceBox branch of the source; it is threaded
explicitly as `localConf`, and `none` models the `NameError` raised when
the priceBox is visited before any assignment to it. The float literal
`0.5` is written `mkRat 1 2`. -/
def recognizeStep (env : RecognitionEnv) (localConf : Option ℚ) (box : Box) :
    Option (Box × Option ℚ) :=
  if box.name = "nameBox" then
    let r := env.recog box env.names
    some (if r.1 = "" ∨ r.2 < mkRat 1 2
      then { box with text := env.fallbackSheetName, confidence := 0 }
      else { box with text := r.1, confidence := r.2 }, some r.2)
  else if box.name = "unitBox" then
    let r := env.recog box env.units
    some (if r.1 = ""
      then { box with text := r.1, confidence := 0 }
      else { box with text := r.1, confidence := r.2 }, localConf)
  else if box.name = "priceBox" then
    let r := env.recog box env.prices
    match localConf with
    | none => none
    | some c =>
      some (if r.1 = "" ∨ c < 1
        then { box with text := r.1, confidence := 0 }
        else { box with text := r.1, confidence := r.2 }, localConf)
  else if box.name = "pageNumberBox" then
    let r := env.recog box env.pageNumbers
    some (if r.1 = "" ∨ r.2 < 1
      then { box with text := toString env.fallbackPageNumber, confidence := 0 }
      else { box with text := r.1, confidence := r.2 }, some r.2)
  else if strContainsSub box.name "dataBox" then
    let r := env.recog box env.memberIds
    some ({ box with text := r.1, confidence := r.2 }, localConf)
  else
    some ({ box with text := "", confidence := 1 }, localConf)

/-- Recursion over the boxes of the sheet, threading the stale local
variable through `recognizeStep`. -/
def processBoxesLoop (env : RecognitionEnv) :
    Option ℚ → List Box → Option (List Box)
  | _, [] => some []
  | localConf, box :: rest =>
    match recognizeStep env localConf box with
    | none => none
    | some (b, localConf2) =>
      (processBoxesLoop env localConf2 rest).map (b :: ·)

/-- Translation of `ProductSheet.boxByName` lookups used by
`RecognizeText.process`. Modelled from the spec: box names are unique in a
template, so the first box of the given name is the box. `none` models the
error raised for a box name absent from the template. -/
def boxByName (boxes : List Box) (name : String) : Option Box :=
  boxes.find? fun b => b.name == name

/-- Helper modelling an in-place mutation of the (unique) box of a given
name inside the sheet's box collection. -/
def updateBox (boxes : List Box) (name : String) (f : Box → Box) : List Box :=
  boxes.map fun b => if b.name == name then f b else b

/-- Translation of the cross-box inference block of `RecognizeText.process`
("try to fill in product infos if id is clear"): when the name box
resolved at confidence exactly 1, the unit and price boxes are overwritten
with the expected values at confidence 1 when their confidence is below 1,
or forced to confidence 0 when they hold a different resolved value; and
when the product's remaining quantity is below a full sheet's capacity and
the page-number box text is blank, that box becomes the "page 1" string at
confidence 0. `products` models the `self.__db.products[...]` lookup
keyed by the resolved sheet identity; `maxQuantity` models
`ProductSheet.maxQuantity()` and `page1String` the configured page-number
string formatted with page 1 (both spec-modelled: their sources are not
available). -/
def inferProductInfo (products : String → Option ProductInfo)
    (maxQuantity : ℤ) (page1String : String) (boxes : List Box) :
    Option (List Box) :=
  match boxByName boxes "nameBox", boxByName boxes "unitBox",
        boxByName boxes "priceBox", boxByName boxes "pageNumberBox" with
  | some nameBox, some unitBox, some priceBox, some pageNumberBox =>
    if nameBox.confidence = 1 then
      match products nameBox.text with
      | none => none
      | some product =>
        let expectedAmountAndUnit := strToUpper product.amountAndUnit
        let expectedPrice := strToUpper product.formattedPrice
        let boxes1 :=
          if unitBox.confidence < 1 then
            updateBox boxes "unitBox" fun b =>
              { b with text := expectedAmountAndUnit, confidence := 1 }
          else if unitBox.text ≠ expectedAmountAndUnit then
            updateBox boxes "unitBox" fun b => { b with confidence := 0 }
          else boxes
        let boxes2 :=
          if priceBox.confidence < 1 then
            updateBox boxes1 "priceBox" fun b =>
              { b with text := expectedPrice, confidence := 1 }
          else if priceBox.text ≠ expectedPrice then
            updateBox boxes1 "priceBox" fun b => { b with confidence := 0 }
          else boxes1
        let boxes3 :=
          if product.previousQuantity < maxQuantity ∧ pageNumberBox.text = "" then
            updateBox boxes2 "pageNumberBox" fun b =>
              { b with confidence := 0, text := page1String }
          else boxes2
        some boxes3
    else some boxes
  | _, _, _, _ => none

/-- Spec-modelled `ProductSheet.neighbourBox`: the neighbour of a box in
one grid direction, located by grid position; `none` when the position is
off the grid. -/
def neighbourBox (boxes : List Box) (b : Box) (dRow dCol : ℤ) : Option Box :=
  boxes.find? fun x => x.row == b.row + dRow && x.col == b.col + dCol

/-- Translation of the neighbour-flagging loop of `RecognizeText.process`
("assume box should be filled if at least two neighbours are filled"):
a blank box whose confidence is not 0 and which has at least 2 filled
neighbours (up, down, left, right) is forced to confidence 0. Only the
visited box is mutated and only its confidence, so the sequential Python
loop is a pointwise map over the snapshot of the box texts. -/
def flagSuspiciousBlanks (boxes : List Box) : List Box :=
  boxes.map fun box =>
    if box.text ≠ "" ∨ box.confidence = 0 then box
    else
      let dirs : List (ℤ × ℤ) := [(-1, 0), (1, 0), (0, -1), (0, 1)]
      let numFilledNeighbours := (dirs.filter fun d =>
        match neighbourBox boxes box d.1 d.2 with
        | some nb => nb.text != ""
        | none => false).length
      if 2 ≤ numFilledNeighbours then { box with confidence := 0 } else box

/-- Translation of `RecognizeText.process` after the external image
pipeline: per-box recognition, cross-box inference, and neighbour
flagging, in that order. The final loop only sets a display color for
low-confidence boxes and is omitted. The stale local `confidence` starts
unset. -/
def processSheetBoxes (env : RecognitionEnv)
    (products : String → Option ProductInfo)
    (maxQuantity : ℤ) (page1String : String) (boxes : List Box) :
    Option (List Box) := do
  let boxes1 ← processBoxesLoop env none boxes
  let boxes2 ← inferProductInfo products maxQuantity page1String boxes1
  pure (flagSuspiciousBlanks boxes2)

/-- Range of outcomes the per-box recognizer can produce, per
`RecognizeText.recognizeBoxText`: a judged-blank box at confidence 1, a
rejected match at confidence 0, or an accepted candidate at a confidence
in (0, 1]. -/
def RecogOutcome (cands : List String) (r : String × ℚ) : Prop :=
  r = ("", 1) ∨ r = ("", 0) ∨ (r.1 ∈ cands ∧ 0 < r.2 ∧ r.2 ≤ 1)

/-- Soundness invariant of a recognized box: blank text only at confidence
0 or 1, and confidence within the unit interval. -/
def BoxSound (b : Box) : Prop :=
  (b.text = "" → b.confidence = 0 ∨ b.confidence = 1) ∧
  0 ≤ b.confidence ∧ b.confidence ≤ 1

/-- Helper: every possible recognizer outcome has confidence in [0, 1]. -/
lemma recogOutcome_range {cands : List String} {r : String × ℚ}
    (h : RecogOutcome cands r) : 0 ≤ r.2 ∧ r.2 ≤ 1 := by
  rcases h with h | h | h
  · rw [h]
    constructor <;> norm_num
  · rw [h]
    constructor <;> norm_num
  · exact ⟨le_of_lt h.2.1, h.2.2⟩

/-- Helper: one step of the per-box loop produces a sound box. -/
lemma recognizeStep_sound (env : RecognitionEnv)
    (hrecog : ∀ b cands, RecogOutcome cands (env.recog b cands))
    (hmem : "" ∉ env.memberIds)
    (lc lc2 : Option ℚ) (box b : Box)
    (h : recognizeStep env lc box = some (b, lc2)) : BoxSound b := by
  unfold recognizeStep at h
  by_cases h1 : box.name = "nameBox"
  · rw [if_pos h1] at h
    simp only [Option.some.injEq, Prod.mk.injEq] at h
    obtain ⟨hb, -⟩ := h
    subst hb
    split
    · exact ⟨fun _ => Or.inl rfl, by norm_num, by norm_num⟩
    · next hc =>
      push_neg at hc
      have hrange := recogOutcome_range (hrecog box env.names)
      exact ⟨fun he => absurd he hc.1, hrange.1, hrange.2⟩
  · rw [if_neg h1] at h
    by_cases h2 : box.name = "unitBox"
    · rw [if_pos h2] at h
      simp only [Option.some.injEq, Prod.mk.injEq] at h
      obtain ⟨hb, -⟩ := h
      subst hb
      split
      · exact ⟨fun _ => Or.inl rfl, by norm_num, by norm_num⟩
      · next hc =>
        have hrange := recogOutcome_range (hrecog box env.units)
        exact ⟨fun he => absurd he hc, hrange.1, hrange.2⟩
    · rw [if_neg h2] at h
      by_cases h3 : box.name = "priceBox"
      · rw [if_pos h3] at h
        rcases lc with _ | c
        · simp at h
        · simp only [Option.some.injEq, Prod.mk.injEq] at h
          obtain ⟨hb, -⟩ := h
          subst hb
          split
          · exact ⟨fun _ => Or.inl rfl, by norm_num, by norm_num⟩
          · next hc =>
            push_neg at hc
            have hrange := recogOutcome_range (hrecog box env.prices)
            exact ⟨fun he => absurd he hc.1, hrange.1, hrange.2⟩
      · rw [if_neg h3] at h
        by_cases h4 : box.name = "pageNumberBox"
        · rw [if_pos h4] at h
          simp only [Option.some.injEq, Prod.mk.injEq] at h
          obtain ⟨hb, -⟩ := h
          subst hb
          split
          · exact ⟨fun _ => Or.inl rfl, by norm_num, by norm_num⟩
          · next hc =>
            push_neg at hc
            have hrange := recogOutcome_range (hrecog box env.pageNumbers)
            exact ⟨fun he => absurd he hc.1, hrange.1, hrange.2⟩
        · rw [if_neg h4] at h
          by_cases h5 : strContainsSub box.name "dataBox" = true
          · rw [if_pos h5] at h
            simp only [Option.some.injEq, Prod.mk.injEq] at h
            obtain ⟨hb, -⟩ := h
            subst hb
            have hrange := recogOutcome_range (hrecog box env.memberIds)
            rcases hrecog box env.memberIds with hout | hout | hout
            · rw [hout]
              exact ⟨fun _ => Or.inr rfl, by norm_num, by norm_num⟩
            · rw [hout]
              exact ⟨fun _ => Or.inl rfl, by norm_num, by norm_num⟩
            · exact ⟨fun he => absurd (he ▸ hout.1) hmem, hrange.1, hrange.2⟩
          · rw [if_neg h5] at h
            simp only [Option.some.injEq, Prod.mk.injEq] at h
            obtain ⟨hb, -⟩ := h
            subst hb
            exact ⟨fun _ => Or.inr rfl, by norm_num, by norm_num⟩

/-- Helper: every box produced by the per-box loop is sound. -/
lemma processBoxesLoop_sound (env : RecognitionEnv)
    (hrecog : ∀ b cands, RecogOutcome cands (env.recog b cands))
    (hmem : "" ∉ env.memberIds) :
    ∀ (boxes : List Box) (lc : Option ℚ) (result : List Box),
      processBoxesLoop env lc boxes = some result →
      ∀ b ∈ result, BoxSound b := by
  intro boxes
  induction boxes with
  | nil =>
    intro lc result h b hb
    rw [processBoxesLoop] at h
    have : result = [] := ((Option.some.injEq _ _).mp h).symm
    subst this
    simp at hb
  | cons box rest ih =>
    intro lc result h b hb
    rw [processBoxesLoop] at h
    rcases hstep : recognizeStep env lc box with _ | ⟨b0, lc2⟩
    · rw [hstep] at h
      exact absurd h (by simp)
    · rw [hstep] at h
      rcases Option.map_eq_some'.mp h with ⟨rest2, hrest, hcons⟩
      subst hcons
      rcases List.mem_cons.mp hb with hb1 | hb1
      · subst hb1
        exact recognizeStep_sound env hrecog hmem lc lc2 box b hstep
      · exact ih lc2 rest2 hrest b hb1

/-- Helper: a pointwise update of the boxes preserves soundness when the
update map does. -/
lemma updateBox_sound (boxes : List Box) (name : String) (f : Box → Box)
    (hb : ∀ b ∈ boxes, BoxSound b) (hf : ∀ b, BoxSound b → BoxSound (f b)) :
    ∀ b ∈ updateBox boxes name f, BoxSound b := by
  intro b hmem
  rcases List.mem_map.mp hmem with ⟨a, ha, hab⟩
  by_cases hn : (a.name == name) = true
  · rw [if_pos hn] at hab
    exact hab ▸ hf a (hb a ha)
  · rw [if_neg hn] at hab
    exact hab ▸ hb a ha

/-- Helper: cross-box inference preserves box soundness. -/
lemma inferProductInfo_sound (products : String → Option ProductInfo)
    (maxQuantity : ℤ) (page1String : String) (boxes result : List Box)
    (hb : ∀ b ∈ boxes, BoxSound b)
    (h : inferProductInfo products maxQuantity page1String boxes = some result) :
    ∀ b ∈ result, BoxSound b := by
  unfold inferProductInfo at h
  rcases hn : boxByName boxes "nameBox" with _ | nameBox
  · simp [hn] at h
  rcases hu : boxByName boxes "unitBox" with _ | unitBox
  · simp [hn, hu] at h
  rcases hp : boxByName boxes "priceBox" with _ | priceBox
  · simp [hn, hu, hp] at h
  rcases hg : boxByName boxes "pageNumberBox" with _ | pageNumberBox
  · simp [hn, hu, hp, hg] at h
  simp only [hn, hu, hp, hg] at h
  by_cases hc : nameBox.confidence = 1
  · rw [if_pos hc] at h
    rcases hpr : products nameBox.text with _ | product
    · simp [hpr] at h
    simp only [hpr, Option.some.injEq] at h
    subst h
    have hstep : ∀ (bs : List Box) (name : String) (f : Box → Box),
        (∀ b ∈ bs, BoxSound b) → (∀ b, BoxSound (f b)) →
        ∀ b ∈ updateBox bs name f, BoxSound b := fun bs name f h1 h2 =>
      updateBox_sound bs name f h1 fun b _ => h2 b
    apply fun hfin => hfin
    split
    · apply hstep
      · split
        · apply hstep
          · split
            · apply hstep
              · exact hb
              · intro b
                exact ⟨fun _ => Or.inr rfl, by norm_num, by norm_num⟩
            · split
              · apply hstep
                · exact hb
                · intro b
                  exact ⟨fun he => Or.inl rfl, by norm_num, by norm_num⟩
              · exact hb
          · intro b
            exact ⟨fun _ => Or.inr rfl, by norm_num, by norm_num⟩
        · split
          · apply hstep
            · split
              · apply hstep
                · exact hb
                · intro b
                  exact ⟨fun _ => Or.inr rfl, by norm_num, by norm_num⟩
              · split
                · apply hstep
                  · exact hb
                  · intro b
                    exact ⟨fun he => Or.inl rfl, by norm_num, by norm_num⟩
                · exact hb
            · intro b
              exact ⟨fun he => Or.inl rfl, by norm_num, by norm_num⟩
          · split
            · apply hstep
              · exact hb
              · intro b
                exact ⟨fun _ => Or.inr rfl, by norm_num, by norm_num⟩
            · split
              · apply hstep
                · exact hb
                · intro b
                  exact ⟨fun he => Or.inl rfl, by norm_num, by norm_num⟩
              · exact hb
      · intro b
        exact ⟨fun _ => Or.inl rfl, by norm_num, by norm_num⟩
    · split
      · apply hstep
        · split
          · apply hstep
            · exact hb
            · intro b
              exact ⟨fun _ => Or.inr rfl, by norm_num, by norm_num⟩
          · split
            · apply hstep
              · exact hb
              · intro b
                exact ⟨fun he => Or.inl rfl, by norm_num, by norm_num⟩
            · exact hb
        · intro b
          exact ⟨fun _ => Or.inr rfl, by norm_num, by norm_num⟩
      · split
        · apply hstep
          · split
            · apply hstep
              · exact hb
              · intro b
                exact ⟨fun _ => Or.inr rfl, by norm_num, by norm_num⟩
            · split
              · apply hstep
                · exact hb
                · intro b
                  exact ⟨fun he => Or.inl rfl, by norm_num, by norm_num⟩
              · exact hb
          · intro b
            exact ⟨fun he => Or.inl rfl, by norm_num, by norm_num⟩
        · split
          · apply hstep
            · exact hb
            · intro b
              exact ⟨fun _ => Or.inr rfl, by norm_num, by norm_num⟩
          · split
            · apply hstep
              · exact hb
              · intro b
                exact ⟨fun he => Or.inl rfl, by norm_num, by norm_num⟩
            · exact hb
  · rw [if_neg hc] at h
    have hres := ((Option.some.injEq _ _).mp h)
    subst hres
    exact hb

/-- Helper: neighbour flagging preserves box soundness. -/
lemma flagSuspiciousBlanks_sound (boxes : List Box)
    (hb : ∀ b ∈ boxes, BoxSound b) :
    ∀ b ∈ flagSuspiciousBlanks boxes, BoxSound b := by
  intro b hmem
  rcases List.mem_map.mp hmem with ⟨a, ha, hab⟩
  have hsa := hb a ha
  by_cases h1 : a.text ≠ "" ∨ a.confidence = 0
  · rw [if_pos h1] at hab
    exact hab ▸ hsa
  · rw [if_neg h1] at hab
    subst hab
    dsimp only
    split
    · exact ⟨fun _ => Or.inl rfl, by norm_num, by norm_num⟩
    · exact hsa

end Tagtrail

namespace Tagtrail

/-- Sample recognition environment for concrete witnesses: the recognizer
capability always reports a judged-blank box at confidence 1. -/
def sampleEnv : RecognitionEnv where
  fallbackSheetName := "FALLBACK"
  fallbackPageNumber := 1
  names := ["A"]
  units := ["1KG"]
  prices := ["1.00"]
  memberIds := ["M1"]
  pageNumbers := ["P1"]
  recog := fun _ _ => ("", 1)

/-- Sample sheet boxes for concrete witnesses. -/
def sampleBoxes : List Box :=
  [⟨"nameBox", "", 0, 0, 0⟩, ⟨"unitBox", "", 0, 0, 1⟩,
   ⟨"priceBox", "", 0, 0, 2⟩, ⟨"pageNumberBox", "", 0, 0, 3⟩,
   ⟨"dataBox1x1", "", 0, 1, 0⟩]

/-- Result of processing the sample boxes in the sample environment. -/
def sampleResult : List Box :=
  [⟨"nameBox", "FALLBACK", 0, 0, 0⟩, ⟨"unitBox", "", 0, 0, 1⟩,
   ⟨"priceBox", "", 0, 0, 2⟩, ⟨"pageNumberBox", "1", 0, 0, 3⟩,
   ⟨"dataBox1x1", "", 1, 1, 0⟩]

/-- C2: for every box of a sheet produced by the recognizer (per-box
recognition, cross-box inference and neighbour flagging all run), blank
resolved text entails confidence exactly 0 or exactly 1, given that the
per-box recognizer outcomes are as `recognizeBoxText` produces them and
that no member id is the empty string. -/
theorem C2_blank_text_confidence (env : RecognitionEnv)
    (products : String → Option ProductInfo) (maxQuantity : ℤ)
    (page1String : String) (boxes result : List Box)
    (hrecog : ∀ b cands, RecogOutcome cands (env.recog b cands))
    (hmem : "" ∉ env.memberIds)
    (h : processSheetBoxes env products maxQuantity page1String boxes = some result) :
    ∀ b ∈ result, b.text = "" → b.confidence = 0 ∨ b.confidence = 1 := by
  unfold processSheetBoxes at h
  rcases h1 : processBoxesLoop env none boxes with _ | boxes1
  · rw [h1] at h
    simp at h
  rw [h1] at h
  simp only [Option.pure_def, Option.bind_eq_bind, Option.some_bind] at h
  rcases h2 : inferProductInfo products maxQuantity page1String boxes1 with _ | boxes2
  · rw [h2] at h
    simp at h
  rw [h2] at h
  simp only [Option.some_bind, Option.some.injEq] at h
  subst h
  intro b hbmem htext
  have hs1 := processBoxesLoop_sound env hrecog hmem boxes none boxes1 h1
  have hs2 := inferProductInfo_sound products maxQuantity page1String boxes1 boxes2 hs1 h2
  have hs3 := flagSuspiciousBlanks_sound boxes2 hs2
  exact (hs3 b hbmem).1 htext

/-- Witness for C2 on a concrete sheet and environment, instantiated at
the blank unit box of the processed sample sheet. -/
theorem C2_witness :
    (⟨"unitBox", "", 0, 0, 1⟩ : Box) ∈ sampleResult ∧
    ((0 : ℚ) = 0 ∨ (0 : ℚ) = 1) :=
  ⟨by decide,
   C2_blank_text_confidence sampleEnv (fun _ => none) 80 "P1" sampleBoxes sampleResult
     (fun _ _ => Or.inl rfl) (by decide) (by decide)
     ⟨"unitBox", "", 0, 0, 1⟩ (by decide) rfl⟩

/-- C9: every confidence of a processed sheet lies in [0, 1]; and every
confidence returned by `findClosestString` is 0 or of the form
`1 - d1/d2` with `d1 < d2`, a value in (0, 1]. -/
theorem C9_confidence_range (env : RecognitionEnv)
    (products : String → Option ProductInfo) (maxQuantity : ℤ)
    (page1String : String) (boxes result : List Box)
    (hrecog : ∀ b cands, RecogOutcome cands (env.recog b cands))
    (hmem : "" ∉ env.memberIds)
    (h : processSheetBoxes env products maxQuantity page1String boxes = some result) :
    (∀ b ∈ result, 0 ≤ b.confidence ∧ b.confidence ≤ 1) ∧
    (∀ s cands q t, findClosestString s cands = some (q, t) →
      q = 0 ∨ ∃ d1 d2 : ℕ, d1 < d2 ∧ q = 1 - (d1 : ℚ) / (d2 : ℚ) ∧
        0 < q ∧ q ≤ 1) := by
  constructor
  · unfold processSheetBoxes at h
    rcases h1 : processBoxesLoop env none boxes with _ | boxes1
    · rw [h1] at h
      simp at h
    rw [h1] at h
    simp only [Option.pure_def, Option.bind_eq_bind, Option.some_bind] at h
    rcases h2 : inferProductInfo products maxQuantity page1String boxes1 with _ | boxes2
    · rw [h2] at h
      simp at h
    rw [h2] at h
    simp only [Option.some_bind, Option.some.injEq] at h
    subst h
    intro b hbmem
    have hs1 := processBoxesLoop_sound env hrecog hmem boxes none boxes1 h1
    have hs2 := inferProductInfo_sound products maxQuantity page1String boxes1 boxes2 hs1 h2
    have hs3 := flagSuspiciousBlanks_sound boxes2 hs2
    exact (hs3 b hbmem).2
  · intro s cands q t hq
    rcases hcase : (distList s cands).insertionSort (· ≤ ·) with _ | ⟨d1, _ | ⟨d2, rest⟩⟩
    · unfold findClosestString at hq
      rw [hcase] at hq
      simp at hq
    · unfold findClosestString at hq
      rw [hcase] at hq
      simp at hq
    · rw [findClosestString_eq_of_sort s cands d1 d2 rest hcase] at hq
      by_cases hb : 5 < d1 ∨ d1 = d2
      · rw [if_pos hb] at hq
        left
        exact (((Prod.mk.injEq _ _ _ _).mp ((Option.some.injEq _ _).mp hq)).1).symm
      · rw [if_neg hb] at hq
        right
        have htwo := twoSmallest_of_sort_eq (distList s cands) d1 d2 rest hcase
        have hne : d1 ≠ d2 := fun hcc => hb (Or.inr hcc)
        have hlt : d1 < d2 := lt_of_le_of_ne htwo.2.2.1 hne
        have hq1 : q = 1 - (d1 : ℚ) / (d2 : ℚ) :=
          (((Prod.mk.injEq _ _ _ _).mp ((Option.some.injEq _ _).mp hq)).1).symm
        have hd2pos : (0 : ℚ) < (d2 : ℚ) := by
          have : 0 < d2 := Nat.pos_of_ne_zero (by omega)
          exact_mod_cast this
        have hdivlt : (d1 : ℚ) / (d2 : ℚ) < 1 := by
          rw [div_lt_one hd2pos]
          exact_mod_cast hlt
        have hdivnn : 0 ≤ (d1 : ℚ) / (d2 : ℚ) :=
          div_nonneg (by positivity) (le_of_lt hd2pos)
        exact ⟨d1, d2, hlt, hq1, by rw [hq1]; linarith, by rw [hq1]; linarith⟩

/-- Witness for C9 on a concrete sheet and environment. -/
theorem C9_witness :
    (∀ b ∈ sampleResult, 0 ≤ b.confidence ∧ b.confidence ≤ 1) ∧
    (∀ s cands q t, findClosestString s cands = some (q, t) →
      q = 0 ∨ ∃ d1 d2 : ℕ, d1 < d2 ∧ q = 1 - (d1 : ℚ) / (d2 : ℚ) ∧
        0 < q ∧ q ≤ 1) :=
  C9_confidence_range sampleEnv (fun _ => none) 80 "P1" sampleBoxes sampleResult
    (fun _ _ => Or.inl rfl) (by decide) (by decide)

end Tagtrail

namespace Tagtrail

/-- Helper: looking up the updated name finds the updated box. -/
lemma boxByName_updateBox_same (boxes : List Box) (name : String) (f : Box → Box)
    (hf : ∀ b, (f b).name = b.name) :
    boxByName (updateBox boxes name f) name = (boxByName boxes name).map f := by
  induction boxes with
  | nil => rfl
  | cons b t ih =>
    simp only [updateBox, List.map_cons, boxByName]
    by_cases hb : (b.name == name) = true
    · have hfb : ((f b).name == name) = true := by rw [hf b]; exact hb
      rw [if_pos hb]
      simp only [List.find?]
      rw [hfb, hb]
      rfl
    · have hb2 : (b.name == name) = false := by simpa using hb
      have hfb : ((f b).name == name) = false := by rw [hf b]; exact hb2
      rw [if_neg hb]
      simp only [List.find?]
      rw [hb2]
      simpa [boxByName, updateBox] using ih

/-- Helper: looking up a different name is unaffected by an update. -/
lemma boxByName_updateBox_other (boxes : List Box) (name name2 : String)
    (f : Box → Box) (hne : name ≠ name2) (hf : ∀ b, (f b).name = b.name) :
    boxByName (updateBox boxes name2 f) name = boxByName boxes name := by
  induction boxes with
  | nil => rfl
  | cons b t ih =>
    simp only [updateBox, List.map_cons, boxByName]
    by_cases hb : (b.name == name2) = true
    · have hbn : (b.name == name) = false := by
        have hb2 : b.name = name2 := eq_of_beq hb
        rw [hb2]
        exact beq_false_of_ne fun hc => hne hc.symm
      have hfn : ((f b).name == name) = false := by rw [hf b]; exact hbn
      rw [if_pos hb]
      simp only [List.find?]
      rw [hfn, hbn]
      simpa [boxByName, updateBox] using ih
    · rw [if_neg hb]
      simp only [List.find?]
      by_cases hbn : (b.name == name) = true
      · rw [hbn]
      · have hbn2 : (b.name == name) = false := by simpa using hbn
        rw [hbn2]
        simpa [boxByName, updateBox] using ih

/-- Helper: shaped variant of `boxByName_updateBox_same` for updates that
rewrite only text and confidence (all updates of the inference block do). -/
lemma boxByName_updTC_same (boxes : List Box) (name : String)
    (T : Box → String) (C : Box → ℚ) :
    boxByName (updateBox boxes name fun b => { b with text := T b, confidence := C b }) name =
      (boxByName boxes name).map fun b => { b with text := T b, confidence := C b } :=
  boxByName_updateBox_same boxes name
    (fun b => { b with text := T b, confidence := C b }) (fun _ => rfl)

/-- Helper: shaped variant of `boxByName_updateBox_other` for updates that
rewrite only text and confidence. -/
lemma boxByName_updTC_other (boxes : List Box) (name name2 : String)
    (T : Box → String) (C : Box → ℚ) (hne : name ≠ name2) :
    boxByName (updateBox boxes name2 fun b => { b with text := T b, confidence := C b }) name =
      boxByName boxes name :=
  boxByName_updateBox_other boxes name name2
    (fun b => { b with text := T b, confidence := C b }) hne (fun _ => rfl)

/-- Helper: the exact result of the cross-box inference lookup for the
unit, price and page-number boxes once the name box resolved at
confidence 1 to a known product. -/
lemma inferProductInfo_lookup (products : String → Option ProductInfo)
    (maxQuantity : ℤ) (page1String : String) (boxes result : List Box)
    (nameB unitB priceB pageB : Box) (product : ProductInfo)
    (hn : boxByName boxes "nameBox" = some nameB)
    (hu : boxByName boxes "unitBox" = some unitB)
    (hp : boxByName boxes "priceBox" = some priceB)
    (hg : boxByName boxes "pageNumberBox" = some pageB)
    (hconf : nameB.confidence = 1)
    (hprod : products nameB.text = some product)
    (h : inferProductInfo products maxQuantity page1String boxes = some result) :
    boxByName result "unitBox" =
      some (if unitB.confidence < 1 then { unitB with text := strToUpper product.amountAndUnit, confidence := 1 }
        else if unitB.text ≠ strToUpper product.amountAndUnit then { unitB with confidence := 0 }
        else unitB) ∧
    boxByName result "priceBox" =
      some (if priceB.confidence < 1 then { priceB with text := strToUpper product.formattedPrice, confidence := 1 }
        else if priceB.text ≠ strToUpper product.formattedPrice then { priceB with confidence := 0 }
        else priceB) ∧
    boxByName result "pageNumberBox" =
      some (if product.previousQuantity < maxQuantity ∧ pageB.text = "" then { pageB with confidence := 0, text := page1String }
        else pageB) := by
  unfold inferProductInfo at h
  simp only [hn, hu, hp, hg] at h
  rw [if_pos hconf] at h
  simp only [hprod, Option.some.injEq] at h
  subst h
  have hgetu : boxByName (if unitB.confidence < 1 then
        updateBox boxes "unitBox" fun b => { b with text := strToUpper product.amountAndUnit, confidence := 1 }
      else if unitB.text ≠ strToUpper product.amountAndUnit then
        updateBox boxes "unitBox" fun b => { b with confidence := 0 }
      else boxes) "unitBox" =
      some (if unitB.confidence < 1 then { unitB with text := strToUpper product.amountAndUnit, confidence := 1 }
        else if unitB.text ≠ strToUpper product.amountAndUnit then { unitB with confidence := 0 }
        else unitB) := by
    by_cases u1 : unitB.confidence < 1
    · rw [if_pos u1, if_pos u1, boxByName_updTC_same, hu]
      rfl
    · rw [if_neg u1, if_neg u1]
      by_cases u2 : unitB.text ≠ strToUpper product.amountAndUnit
      · rw [if_pos u2, if_pos u2, boxByName_updTC_same, hu]
        rfl
      · rw [if_neg u2, if_neg u2, hu]
  have hthru1 : ∀ nm : String, nm ≠ "unitBox" →
      boxByName (if unitB.confidence < 1 then
        updateBox boxes "unitBox" fun b => { b with text := strToUpper product.amountAndUnit, confidence := 1 }
      else if unitB.text ≠ strToUpper product.amountAndUnit then
        updateBox boxes "unitBox" fun b => { b with confidence := 0 }
      else boxes) nm = boxByName boxes nm := by
    intro nm hnm
    by_cases u1 : unitB.confidence < 1
    · rw [if_pos u1, boxByName_updTC_other _ nm "unitBox" _ _ hnm]
    · rw [if_neg u1]
      by_cases u2 : unitB.text ≠ strToUpper product.amountAndUnit
      · rw [if_pos u2, boxByName_updTC_other _ nm "unitBox" _ _ hnm]
      · rw [if_neg u2]
  refine ⟨?_, ?_, ?_⟩
  · split
    · rw [boxByName_updTC_other _ "unitBox" "pageNumberBox" _ _ (by decide)]
      split
      · rw [boxByName_updTC_other _ "unitBox" "priceBox" _ _ (by decide)]
        exact hgetu
      split
      · rw [boxByName_updTC_other _ "unitBox" "priceBox" _ _ (by decide)]
        exact hgetu
      · exact hgetu
    · split
      · rw [boxByName_updTC_other _ "unitBox" "priceBox" _ _ (by decide)]
        exact hgetu
      split
      · rw [boxByName_updTC_other _ "unitBox" "priceBox" _ _ (by decide)]
        exact hgetu
      · exact hgetu
  · split
    · rw [boxByName_updTC_other _ "priceBox" "pageNumberBox" _ _ (by decide)]
      split
      · rw [boxByName_updTC_same, hthru1 _ (by decide), hp]
        rfl
      split
      · rw [boxByName_updTC_same, hthru1 _ (by decide), hp]
        rfl
      · rw [hthru1 _ (by decide), hp]
    · split
      · rw [boxByName_updTC_same, hthru1 _ (by decide), hp]
        rfl
      split
      · rw [boxByName_updTC_same, hthru1 _ (by decide), hp]
        rfl
      · rw [hthru1 _ (by decide), hp]
  · have hgetg : ∀ bs : List Box, boxByName bs "pageNumberBox" = some pageB →
        boxByName (if priceB.confidence < 1 then
          updateBox bs "priceBox" fun b => { b with text := strToUpper product.formattedPrice, confidence := 1 }
        else if priceB.text ≠ strToUpper product.formattedPrice then
          updateBox bs "priceBox" fun b => { b with confidence := 0 }
        else bs) "pageNumberBox" = some pageB := by
      intro bs hbs
      split
      · rw [boxByName_updTC_other _ "pageNumberBox" "priceBox" _ _ (by decide), hbs]
      split
      · rw [boxByName_updTC_other _ "pageNumberBox" "priceBox" _ _ (by decide), hbs]
      · exact hbs
    have hbase : boxByName (if unitB.confidence < 1 then
        updateBox boxes "unitBox" fun b => { b with text := strToUpper product.amountAndUnit, confidence := 1 }
      else if unitB.text ≠ strToUpper product.amountAndUnit then
        updateBox boxes "unitBox" fun b => { b with confidence := 0 }
      else boxes) "pageNumberBox" = some pageB := by
      rw [hthru1 _ (by decide), hg]
    split
    · rw [boxByName_updTC_same, hgetg _ hbase]
      rfl
    · exact hgetg _ hbase

end Tagtrail

namespace Tagtrail

/-- C5: whenever the name box resolved with confidence exactly 1 to a known
product, a unit (or price) box with confidence below 1 is overwritten by the
expected unit (or formatted price) at confidence 1, while a unit (or price)
box holding a different resolved value at confidence 1 keeps its text and is
forced to confidence 0. -/
theorem C5_unit_price_inference (products : String → Option ProductInfo)
    (maxQuantity : ℤ) (page1String : String) (boxes result : List Box)
    (nameB unitB priceB pageB : Box) (product : ProductInfo)
    (hn : boxByName boxes "nameBox" = some nameB)
    (hu : boxByName boxes "unitBox" = some unitB)
    (hp : boxByName boxes "priceBox" = some priceB)
    (hg : boxByName boxes "pageNumberBox" = some pageB)
    (hconf : nameB.confidence = 1)
    (hprod : products nameB.text = some product)
    (h : inferProductInfo products maxQuantity page1String boxes = some result) :
    (unitB.confidence < 1 →
      boxByName result "unitBox" =
        some { unitB with text := strToUpper product.amountAndUnit, confidence := 1 }) ∧
    (¬ unitB.confidence < 1 → unitB.text ≠ strToUpper product.amountAndUnit →
      boxByName result "unitBox" = some { unitB with confidence := 0 }) ∧
    (priceB.confidence < 1 →
      boxByName result "priceBox" =
        some { priceB with text := strToUpper product.formattedPrice, confidence := 1 }) ∧
    (¬ priceB.confidence < 1 → priceB.text ≠ strToUpper product.formattedPrice →
      boxByName result "priceBox" = some { priceB with confidence := 0 }) := by
  obtain ⟨h1, h2, -⟩ := inferProductInfo_lookup products maxQuantity page1String
    boxes result nameB unitB priceB pageB product hn hu hp hg hconf hprod h
  refine ⟨?_, ?_, ?_, ?_⟩
  · intro hc
    rw [h1, if_pos hc]
  · intro hc1 hc2
    rw [h1, if_neg hc1, if_pos hc2]
  · intro hc
    rw [h2, if_pos hc]
  · intro hc1 hc2
    rw [h2, if_neg hc1, if_pos hc2]

/-- C6: whenever the name box resolved with confidence exactly 1 to a known
product whose remaining quantity is below one sheet's full tally capacity
and the page-number box text is blank at that point, the page-number box is
set to the configured page-1 string at confidence 0. -/
theorem C6_pageNumber_inference (products : String → Option ProductInfo)
    (maxQuantity : ℤ) (page1String : String) (boxes result : List Box)
    (nameB unitB priceB pageB : Box) (product : ProductInfo)
    (hn : boxByName boxes "nameBox" = some nameB)
    (hu : boxByName boxes "unitBox" = some unitB)
    (hp : boxByName boxes "priceBox" = some priceB)
    (hg : boxByName boxes "pageNumberBox" = some pageB)
    (hconf : nameB.confidence = 1)
    (hprod : products nameB.text = some product)
    (h : inferProductInfo products maxQuantity page1String boxes = some result)
    (hq : product.previousQuantity < maxQuantity)
    (hblank : pageB.text = "") :
    boxByName result "pageNumberBox" =
      some { pageB with confidence := 0, text := page1String } := by
  obtain ⟨-, -, h3⟩ := inferProductInfo_lookup products maxQuantity page1String
    boxes result nameB unitB priceB pageB product hn hu hp hg hconf hprod h
  rw [h3, if_pos ⟨hq, hblank⟩]

/-- Sample product lookup for the inference witnesses. -/
def c5Products : String → Option ProductInfo :=
  fun t => if t = "PROD" then some ⟨"1kg", "2.50", 0⟩ else none

/-- Sample sheet boxes for the inference witnesses: name box resolved at
confidence 1, unit box blank at confidence 0, price box resolved to a
conflicting value at confidence 1, page-number box blank. -/
def c5Boxes : List Box :=
  [⟨"nameBox", "PROD", 1, 0, 0⟩, ⟨"unitBox", "", 0, 0, 1⟩,
   ⟨"priceBox", "2.00", 1, 0, 2⟩, ⟨"pageNumberBox", "", 0, 0, 3⟩]

/-- Result of the inference step on the sample boxes. -/
def c5Result : List Box :=
  [⟨"nameBox", "PROD", 1, 0, 0⟩, ⟨"unitBox", "1KG", 1, 0, 1⟩,
   ⟨"priceBox", "2.00", 0, 0, 2⟩, ⟨"pageNumberBox", "Page 1", 0, 0, 3⟩]

/-- Witness for C5 on the sample boxes: the blank unit box is overwritten
with the expected unit at confidence 1, and the conflicting price box is
forced to confidence 0 keeping its recognized text. -/
theorem C5_witness :
    (((0 : ℚ) < 1) →
      boxByName c5Result "unitBox" = some ⟨"unitBox", "1KG", 1, 0, 1⟩) ∧
    (¬ (0 : ℚ) < 1 → ("" : String) ≠ "1KG" →
      boxByName c5Result "unitBox" = some ⟨"unitBox", "", 0, 0, 1⟩) ∧
    (((1 : ℚ) < 1) →
      boxByName c5Result "priceBox" = some ⟨"priceBox", "2.50", 1, 0, 2⟩) ∧
    (¬ (1 : ℚ) < 1 → ("2.00" : String) ≠ "2.50" →
      boxByName c5Result "priceBox" = some ⟨"priceBox", "2.00", 0, 0, 2⟩) :=
  C5_unit_price_inference c5Products 80 "Page 1" c5Boxes c5Result
    ⟨"nameBox", "PROD", 1, 0, 0⟩ ⟨"unitBox", "", 0, 0, 1⟩
    ⟨"priceBox", "2.00", 1, 0, 2⟩ ⟨"pageNumberBox", "", 0, 0, 3⟩
    ⟨"1kg", "2.50", 0⟩ rfl rfl rfl rfl rfl rfl (by decide)

/-- Witness for C6 on the sample boxes: remaining quantity 0 is below the
capacity 80 and the page-number box is blank, so it becomes the page-1
string at confidence 0. -/
theorem C6_witness :
    boxByName c5Result "pageNumberBox" = some ⟨"pageNumberBox", "Page 1", 0, 0, 3⟩ :=
  C6_pageNumber_inference c5Products 80 "Page 1" c5Boxes c5Result
    ⟨"nameBox", "PROD", 1, 0, 0⟩ ⟨"unitBox", "", 0, 0, 1⟩
    ⟨"priceBox", "2.00", 1, 0, 2⟩ ⟨"pageNumberBox", "", 0, 0, 3⟩
    ⟨"1kg", "2.50", 0⟩ rfl rfl rfl rfl rfl rfl (by decide) (by decide) rfl

end Tagtrail

namespace Tagtrail

/-- Binary/labeled image: rows of pixel values. -/
abbrev Img : Type := List (List ℕ)

/-- Translation of `foregroundSize = len(np.where(thresholdImg == 255)[0])`
in `SheetSplitter.processSheet`: the number of white pixels. -/
def countForeground (img : Img) : ℕ :=
  (img.map fun row => (row.filter fun p => p == 255).length).sum

/-- Translation of the threshold-strategy selection of
`SheetSplitter.processSheet`: the adaptive-threshold biggest component when
one was found, otherwise the Otsu fallback pipeline result. Both images
are results of the external image-processing capability. -/
def sheetThresholdImg (biggestComponentImg : Option Img) (otsuFallbackImg : Img) : Img :=
  match biggestComponentImg with
  | none => otsuFallbackImg
  | some img => img

/-- Per-quadrant output lists of `SheetSplitter` (`self._foregroundImgs`,
`self._rotatedImgs`, `self._outputSheetImgs`); an entry is `none` for an
empty quadrant. -/
structure SplitterState where
  foregroundImgs : List (Option Img)
  rotatedImgs : List (Option Img)
  outputSheetImgs : List (Option Img)
deriving DecidableEq

/-- Translation of `SheetSplitter.processSheet` after color conversion:
select the threshold image, count its foreground, and either mark the
quadrant empty (when the foreground covers less than a quarter of the
quadrant pixels: `foregroundSize < dim0 * dim1 / 4` in exact arithmetic)
appending `None` everywhere, or run the minAreaRect rotation and
sub-pixel extraction (external capability `extractRect`, returning the
rotated image and the extracted sheet image) and append its results.
`dim0` and `dim1` are the first two entries of `sheetImg.shape`. -/
def processSheet (st : SplitterState) (dim0 dim1 : ℕ)
    (biggestComponentImg : Option Img) (otsuFallbackImg : Img)
    (extractRect : Img → Img × Img) : Bool × SplitterState :=
  let thresholdImg := sheetThresholdImg biggestComponentImg otsuFallbackImg
  let foregroundSize := countForeground thresholdImg
  if 4 * foregroundSize < dim0 * dim1 then
    (false, { st with foregroundImgs := st.foregroundImgs ++ [none],
                      rotatedImgs := st.rotatedImgs ++ [none],
                      outputSheetImgs := st.outputSheetImgs ++ [none] })
  else
    let r := extractRect thresholdImg
    (true, { st with foregroundImgs := st.foregroundImgs ++ [some thresholdImg],
                     rotatedImgs := st.rotatedImgs ++ [some r.1],
                     outputSheetImgs := st.outputSheetImgs ++ [some r.2] })

/-- C4: a quadrant whose foreground mask covers less than 25 percent of the
quadrant area is marked empty: `processSheet` returns `False`, appends
`None` as the output sheet image (and rotated image), and no rectangle
extraction happens — the result does not depend on the extraction
capability at all. -/
theorem C4_quadrant_empty (st : SplitterState) (dim0 dim1 : ℕ)
    (biggestComponentImg : Option Img) (otsuFallbackImg : Img)
    (extractRect : Img → Img × Img)
    (hsmall : 4 * countForeground (sheetThresholdImg biggestComponentImg otsuFallbackImg) <
      dim0 * dim1) :
    processSheet st dim0 dim1 biggestComponentImg otsuFallbackImg extractRect =
      (false, { st with foregroundImgs := st.foregroundImgs ++ [none],
                        rotatedImgs := st.rotatedImgs ++ [none],
                        outputSheetImgs := st.outputSheetImgs ++ [none] }) := by
  unfold processSheet
  rw [if_pos hsmall]

/-- Witness for C4: a 4 by 4 quadrant whose threshold mask holds a single
white pixel (4 * 1 < 16) is marked empty. -/
theorem C4_witness :
    processSheet ⟨[], [], []⟩ 4 4 none [[0, 0], [0, 255]] (fun i => (i, i)) =
      (false, ⟨[none], [none], [none]⟩) :=
  C4_quadrant_empty ⟨[], [], []⟩ 4 4 none [[0, 0], [0, 255]] (fun i => (i, i))
    (by decide)

/-- Identity of a recognized sheet: (productId, pageNumber). Modelled from
the spec: `ProductSheet.fileName()` is derived injectively from this pair
(`sheets.ProductSheet` is not among the available sources), so the output
directory is a map keyed by the pair. -/
abbrev SheetId : Type := String × ℕ

/-- Translation of the per-sheet store step of `GUI.recognizeTags`: when a
file for the sheet's identity already exists in the output directory, the
sheet is reset to the fallback identity (`resetSheetToFallback`: fallback
sheet name and current fallback page number) and only then stored. The
result is the new directory content together with the identity under
which the sheet was stored. `ProductSheet.store` (not among the available
sources) is modelled from the spec as writing the sheet data under its
identity. -/
def storeRecognizedSheet (files : SheetId → Option (List Box))
    (sheetId fallbackId : SheetId) (data : List Box) :
    (SheetId → Option (List Box)) × SheetId :=
  let finalId := if (files sheetId).isSome then fallbackId else sheetId
  (fun k => if k = finalId then some data else files k, finalId)

/-- C3: when an output file for the sheet's (productId, pageNumber) key
already exists, the sheet is reassigned to the fallback identity before
being stored, the existing file for that key is left unchanged, and the
sheet data ends up under the fallback key instead. -/
theorem C3_no_overwrite (files : SheetId → Option (List Box))
    (sheetId fallbackId : SheetId) (data oldData : List Box)
    (hexists : files sheetId = some oldData)
    (hne : fallbackId ≠ sheetId) :
    (storeRecognizedSheet files sheetId fallbackId data).2 = fallbackId ∧
    (storeRecognizedSheet files sheetId fallbackId data).1 sheetId = some oldData ∧
    (storeRecognizedSheet files sheetId fallbackId data).1 fallbackId = some data := by
  have hfinal : (storeRecognizedSheet files sheetId fallbackId data).2 = fallbackId := by
    unfold storeRecognizedSheet
    rw [hexists]
    rfl
  have hmap : (storeRecognizedSheet files sheetId fallbackId data).1 =
      fun k => if k = fallbackId then some data else files k := by
    unfold storeRecognizedSheet
    rw [hexists]
    rfl
  refine ⟨hfinal, ?_, ?_⟩
  · rw [hmap]
    show (if sheetId = fallbackId then some data else files sheetId) = some oldData
    rw [if_neg (fun hc => hne hc.symm), hexists]
  · rw [hmap]
    show (if fallbackId = fallbackId then some data else files fallbackId) = some data
    rw [if_pos rfl]

/-- Witness for C3: storing a second sheet for the already-present key
("prod", 1) keeps the stored data and lands under the fallback identity
("scan1_sheet0", 3). -/
theorem C3_witness :
    (storeRecognizedSheet
      (fun k => if k = (("prod", 1) : SheetId) then some [⟨"nameBox", "PROD", 1, 0, 0⟩] else none)
      ("prod", 1) ("scan1_sheet0", 3) [⟨"nameBox", "X", 0, 0, 0⟩]).2 = ("scan1_sheet0", 3) ∧
    (storeRecognizedSheet
      (fun k => if k = (("prod", 1) : SheetId) then some [⟨"nameBox", "PROD", 1, 0, 0⟩] else none)
      ("prod", 1) ("scan1_sheet0", 3) [⟨"nameBox", "X", 0, 0, 0⟩]).1 ("prod", 1) =
        some [⟨"nameBox", "PROD", 1, 0, 0⟩] ∧
    (storeRecognizedSheet
      (fun k => if k = (("prod", 1) : SheetId) then some [⟨"nameBox", "PROD", 1, 0, 0⟩] else none)
      ("prod", 1) ("scan1_sheet0", 3) [⟨"nameBox", "X", 0, 0, 0⟩]).1 ("scan1_sheet0", 3) =
        some [⟨"nameBox", "X", 0, 0, 0⟩] :=
  C3_no_overwrite
    (fun k => if k = (("prod", 1) : SheetId) then some [⟨"nameBox", "PROD", 1, 0, 0⟩] else none)
    ("prod", 1) ("scan1_sheet0", 3) [⟨"nameBox", "X", 0, 0, 0⟩]
    [⟨"nameBox", "PROD", 1, 0, 0⟩] (by decide) (by decide)

end Tagtrail

namespace Tagtrail

/-- Translation of the vote-discarding line of
`RotateSheet.computeRotationAngle`:
`buckets = [numVotes if numVotes>self._voteThreshold else 0 for numVotes in buckets]`. -/
def discardWeakVotes (voteThreshold : ℕ) (buckets : List ℕ) : List ℕ :=
  buckets.map fun numVotes => if voteThreshold < numVotes then numVotes else 0

/-- Translation of `RotateSheet.computeRotationAngle` on the vote buckets
already filled by the per-line `minAngleToGridPts` quantization (float
trigonometry, supplied upstream): discard weak buckets; when no votes
survive, warn and return angle 0; otherwise return the circular
(unit-vector) weighted mean of the surviving bucket angles, an external
real-arithmetic computation supplied as the capability `circularMeanDeg`.
The boolean records whether the not-enough-votes warning was logged. -/
def computeRotationAngle (voteThreshold : ℕ) (circularMeanDeg : List ℕ → ℚ)
    (buckets : List ℕ) : ℚ × Bool :=
  let buckets2 := discardWeakVotes voteThreshold buckets
  if buckets2.sum = 0 then (0, true)
  else (circularMeanDeg buckets2, false)

/-- Translation of the angle selection in `RotateSheet.process`: when
`cv.HoughLinesP` finds no line segments (`lines is None`) the rotation
angle is 0 and nothing is logged; otherwise the angle comes from
`computeRotationAngle` on the buckets voted by the detected lines. -/
def rotateSheetAngle (voteThreshold : ℕ) (circularMeanDeg : List ℕ → ℚ)
    (lineBuckets : Option (List ℕ)) : ℚ × Bool :=
  match lineBuckets with
  | none => (0, false)
  | some buckets => computeRotationAngle voteThreshold circularMeanDeg buckets

/-- C8 (amended): a quantized angle bucket is discarded exactly when its
vote count does not exceed the vote threshold (kept only when
`votes > threshold`); when the line detector finds no segments the applied
correction angle is zero with no warning recorded; when segments exist but
no bucket survives the discarding, the correction angle is zero and the
warning is recorded. -/
theorem C8_rotation_votes (voteThreshold : ℕ) (circularMeanDeg : List ℕ → ℚ)
    (buckets : List ℕ) :
    (∀ i, i < buckets.length →
      (buckets.getD i 0 ≤ voteThreshold →
        (discardWeakVotes voteThreshold buckets).getD i 0 = 0) ∧
      (voteThreshold < buckets.getD i 0 →
        (discardWeakVotes voteThreshold buckets).getD i 0 = buckets.getD i 0)) ∧
    rotateSheetAngle voteThreshold circularMeanDeg none = (0, false) ∧
    ((discardWeakVotes voteThreshold buckets).sum = 0 →
      rotateSheetAngle voteThreshold circularMeanDeg (some buckets) = (0, true)) := by
  refine ⟨?_, rfl, ?_⟩
  · intro i hi
    have hlen : (discardWeakVotes voteThreshold buckets).length = buckets.length := by
      simp [discardWeakVotes]
    have hget : (discardWeakVotes voteThreshold buckets).getD i 0 =
        if voteThreshold < buckets.getD i 0 then buckets.getD i 0 else 0 := by
      rw [List.getD_eq_get _ _ (hlen ▸ hi), List.getD_eq_get _ _ hi]
      simp only [discardWeakVotes]
      exact List.get_map _
    constructor
    · intro hle
      rw [hget, if_neg (by omega)]
    · intro hlt
      rw [hget, if_pos hlt]
  · intro hzero
    show computeRotationAngle voteThreshold circularMeanDeg buckets = (0, true)
    unfold computeRotationAngle
    rw [if_pos hzero]

/-- Witness for C8 at threshold 10 and buckets [10, 0]: the bucket with
exactly 10 votes is discarded, every bucket sums to 0, so with lines
present the angle falls back to 0 with a warning, and with no lines the
angle is 0 without warning. -/
theorem C8_witness :
    (∀ i, i < ([10, 0] : List ℕ).length →
      (([10, 0] : List ℕ).getD i 0 ≤ 10 →
        (discardWeakVotes 10 [10, 0]).getD i 0 = 0) ∧
      (10 < ([10, 0] : List ℕ).getD i 0 →
        (discardWeakVotes 10 [10, 0]).getD i 0 = ([10, 0] : List ℕ).getD i 0)) ∧
    rotateSheetAngle 10 (fun _ => 37) none = (0, false) ∧
    ((discardWeakVotes 10 [10, 0]).sum = 0 →
      rotateSheetAngle 10 (fun _ => 37) (some [10, 0]) = (0, true)) :=
  C8_rotation_votes 10 (fun _ => 37) [10, 0]

/-- Counterexample to C8 as stated: a bucket receiving exactly the
threshold number of votes (10) does not receive "fewer votes than the
threshold", yet the code discards it (`numVotes > voteThreshold` fails);
and in the no-line case the angle is 0 but no warning is recorded. -/
theorem C8_counterexample :
    discardWeakVotes 10 [10] = [0] ∧ ¬ (10 < 10) ∧
    rotateSheetAngle 10 (fun _ => 37) none = (0, false) := by
  refine ⟨by decide, by decide, rfl⟩

end Tagtrail

namespace Tagtrail

/-- Connected-component statistics row of
`cv.connectedComponentsWithStats`: bounding-box width and height
(`CC_STAT_WIDTH`, `CC_STAT_HEIGHT`) and pixel area (`CC_STAT_AREA`). -/
structure CCStat where
  width : ℕ
  height : ℕ
  area : ℕ
deriving DecidableEq

/-- Translation of the border scan of `RecognizeText.recognizeBoxText`:
the labels found on the first row, last row, first column and last column
of the labeled crop (`componentsTouchingBorder`). -/
def borderLabels (labeledImg : List (List ℕ)) : List ℕ :=
  labeledImg.headD [] ++ labeledImg.getLastD [] ++
    labeledImg.map (fun row => row.headD 0) ++
    labeledImg.map (fun row => row.getLastD 0)

/-- Translation of the per-label discarding test of
`RecognizeText.recognizeBoxText`: a label in `range(numComponents)` is
zeroed out when it touches the border, its area is below the minimum, or
its normalized aspect ratio `min(w,h)/max(w,h)` (float division, written
as the exact rational `mkRat`) is below the minimum. -/
def badLabel (numComponents : ℕ) (borderLbls : List ℕ) (stats : List CCStat)
    (minComponentArea : ℕ) (minNormalizedAspectRatio : ℚ) (label : ℕ) : Bool :=
  let s := stats.getD label ⟨0, 0, 0⟩
  let normalizedAspectRatio := mkRat (min s.width s.height) (max s.width s.height)
  decide (label < numComponents) &&
    (decide (label ∈ borderLbls) || decide (s.area < minComponentArea) ||
     decide (normalizedAspectRatio < minNormalizedAspectRatio))

/-- Translation of `bordersCleanedImg` in
`RecognizeText.recognizeBoxText`: pixels keep white exactly when their
label is nonzero and not discarded (the source zeroes each bad label in
turn and finally binarizes `0 ↦ 0, nonzero ↦ 255`). -/
def bordersCleaned (labeledImg : List (List ℕ)) (numComponents : ℕ)
    (stats : List CCStat) (minComponentArea : ℕ)
    (minNormalizedAspectRatio : ℚ) : List (List Bool) :=
  let borderLbls := borderLabels labeledImg
  labeledImg.map fun row => row.map fun l =>
    !(l == 0) &&
      !(badLabel numComponents borderLbls stats minComponentArea
        minNormalizedAspectRatio l)

/-- Labels of the ink components that survive the discarding (the
foreground components of `bordersCleanedImg`); the second
`cv.connectedComponents` call reports their count plus one, label 0 being
reserved for the background. -/
def survivingLabels (labeledImg : List (List ℕ)) (numComponents : ℕ)
    (stats : List CCStat) (minComponentArea : ℕ)
    (minNormalizedAspectRatio : ℚ) : List ℕ :=
  (List.range numComponents).filter fun l =>
    l != 0 &&
      !(badLabel numComponents (borderLabels labeledImg) stats minComponentArea
        minNormalizedAspectRatio l)

/-- Inputs of one `RecognizeText.recognizeBoxText` call: the labeled crop
and statistics returned by the external `connectedComponentsWithStats`
capability on the opened binarization, the external `connectedComponents`
count on the cleaned image (`ccCountClean`, label 0 included), the OCR
engine output for the deskewed strip (the `RotateLabel` deskewing and
tesseract invocation are external), the candidate vocabulary, and the
configured minimum area and aspect ratio. -/
structure BoxRecogInput where
  labeledImg : List (List ℕ)
  numComponents : ℕ
  stats : List CCStat
  ccCountClean : List (List Bool) → ℕ
  ocrText : String
  candidateTexts : List String
  minComponentArea : ℕ
  minNormalizedAspectRatio : ℚ

/-- Translation of `RecognizeText.recognizeBoxText` after cropping: clean
the labeled image, re-count components on the cleaned image, declare the
box blank at confidence 1 when `numComponents < 4`, and otherwise match
the upper-cased OCR output against the candidates (returning
(text, confidence)). -/
def recognizeBoxText (inp : BoxRecogInput) : Option (String × ℚ) :=
  let cleaned := bordersCleaned inp.labeledImg inp.numComponents inp.stats
    inp.minComponentArea inp.minNormalizedAspectRatio
  if inp.ccCountClean cleaned < 4 then some ("", 1)
  else
    match findClosestString (strToUpper inp.ocrText) inp.candidateTexts with
    | none => none
    | some r => some (r.2, r.1)

/-- Helper: the blank branch of `recognizeBoxText`. -/
lemma recognizeBoxText_blank (inp : BoxRecogInput)
    (h4 : inp.ccCountClean (bordersCleaned inp.labeledImg inp.numComponents
      inp.stats inp.minComponentArea inp.minNormalizedAspectRatio) < 4) :
    recognizeBoxText inp = some ("", 1) := by
  unfold recognizeBoxText
  rw [if_pos h4]

/-- C7 (amended): when fewer than 3 ink components survive the discarding
(equivalently, the re-labeled component count including the background
label is below 4), `recognizeBoxText` returns empty text at confidence 1,
and its result does not depend on the OCR output or the candidate
vocabulary at all. -/
theorem C7_blank_when_few_components (inp : BoxRecogInput)
    (hcc : inp.ccCountClean (bordersCleaned inp.labeledImg inp.numComponents
        inp.stats inp.minComponentArea inp.minNormalizedAspectRatio) =
      (survivingLabels inp.labeledImg inp.numComponents inp.stats
        inp.minComponentArea inp.minNormalizedAspectRatio).length + 1)
    (hfew : (survivingLabels inp.labeledImg inp.numComponents inp.stats
      inp.minComponentArea inp.minNormalizedAspectRatio).length < 3) :
    recognizeBoxText inp = some ("", 1) ∧
    ∀ ocr cands,
      recognizeBoxText { inp with ocrText := ocr, candidateTexts := cands } =
        some ("", 1) := by
  have h4 : inp.ccCountClean (bordersCleaned inp.labeledImg inp.numComponents
      inp.stats inp.minComponentArea inp.minNormalizedAspectRatio) < 4 := by
    rw [hcc]
    omega
  exact ⟨recognizeBoxText_blank inp h4,
    fun ocr cands =>
      recognizeBoxText_blank { inp with ocrText := ocr, candidateTexts := cands } h4⟩

/-- Labeled crop with three interior 10 by 10 ink squares on a 12 by 34
canvas, background label 0 on the whole border. -/
def c7LabeledImg : List (List ℕ) :=
  (List.range 12).map fun r =>
    (List.range 34).map fun c =>
      if 1 ≤ r ∧ r ≤ 10 ∧ 1 ≤ c ∧ c ≤ 10 then 1
      else if 1 ≤ r ∧ r ≤ 10 ∧ 12 ≤ c ∧ c ≤ 21 then 2
      else if 1 ≤ r ∧ r ≤ 10 ∧ 23 ≤ c ∧ c ≤ 32 then 3
      else 0

/-- Statistics for `c7LabeledImg`: the background and three 10 by 10
squares of area 100 each. -/
def c7Stats : List CCStat :=
  [⟨34, 12, 108⟩, ⟨10, 10, 100⟩, ⟨10, 10, 100⟩, ⟨10, 10, 100⟩]

/-- Concrete `recognizeBoxText` input on which exactly 3 ink components
survive (so the re-labeling counts 4 labels with the background). -/
def c7Input : BoxRecogInput where
  labeledImg := c7LabeledImg
  numComponents := 4
  stats := c7Stats
  ccCountClean := fun _ => 4
  ocrText := "x"
  candidateTexts := ["APPLE", "APPLES"]
  minComponentArea := 100
  minNormalizedAspectRatio := mkRat 1 10

/-- Counterexample to C7 as stated: on a crop where exactly 3 components
survive — fewer than 4 — the code does not declare the box blank: the
second `cv.connectedComponents` count includes the background label, so
`numComponents < 4` means fewer than 3 surviving ink components, and here
the box proceeds to OCR and candidate matching instead of returning
`("", 1.0)`. -/
theorem C7_counterexample :
    (survivingLabels c7LabeledImg 4 c7Stats 100 (mkRat 1 10)).length = 3 ∧
    recognizeBoxText c7Input =
      some ("APPLE", 1 - ((5 : ℕ) : ℚ) / ((6 : ℕ) : ℚ)) ∧
    recognizeBoxText c7Input ≠ some ("", 1) := by
  refine ⟨by decide, rfl, ?_⟩
  intro hc
  rw [show recognizeBoxText c7Input =
    some ("APPLE", 1 - ((5 : ℕ) : ℚ) / ((6 : ℕ) : ℚ)) from rfl] at hc
  simp at hc

/-- Concrete blank input: no ink component survives, the cleaned image is
all background and the re-labeling counts a single (background) label. -/
def c7BlankInput : BoxRecogInput where
  labeledImg := [[0, 0], [0, 0]]
  numComponents := 1
  stats := [⟨2, 2, 4⟩]
  ccCountClean := fun _ => 1
  ocrText := "x"
  candidateTexts := ["APPLE", "APPLES"]
  minComponentArea := 100
  minNormalizedAspectRatio := mkRat 1 10

/-- Witness for C7 on the concrete blank input: 0 surviving components,
blank result independent of OCR output and vocabulary. -/
theorem C7_witness :
    recognizeBoxText c7BlankInput = some ("", 1) ∧
    ∀ ocr cands,
      recognizeBoxText { c7BlankInput with ocrText := ocr, candidateTexts := cands } =
        some ("", 1) :=
  C7_blank_when_few_components c7BlankInput (by decide) (by decide)

end Tagtrail
